import Mathlib

/-!
Shallow embedding of the business-hours core of `src/app.py` (a
package-tracking app).  Calendar dates are civil `(year, month, day)`
triples mirroring Python `datetime.date`; instants carry a date plus a
time-of-day in minutes; Python floats are modelled as rationals and
Python `round(x, k)` as round-half-to-even at `k` decimal places on
rationals.  The process-wide holiday set (`st.secrets["HOLIDAYS"]`) is
threaded through as an explicit `List String` parameter.
-/

/-- A civil calendar date, mirroring Python `datetime.date`. -/
structure Ymd where
  y : Nat
  m : Nat
  d : Nat
deriving DecidableEq, Repr

/-- A date plus a time of day in minutes since midnight, mirroring the
`datetime.datetime` values the app builds (all at minute granularity:
`datetime.combine(date, HH:MM)`). -/
structure Instant where
  date : Ymd
  tmin : Nat
deriving DecidableEq, Repr

/-- Gregorian leap-year rule (as used by `datetime.date`). -/
def leapYear (y : Nat) : Bool :=
  (y % 4 == 0 && y % 100 != 0) || y % 400 == 0

/-- Days in a month, parameterized by the leap flag. -/
def dimL (L : Bool) (m : Nat) : Nat :=
  if m = 2 then (if L then 29 else 28)
  else if m = 4 ∨ m = 6 ∨ m = 9 ∨ m = 11 then 30
  else 31

/-- Days in a month of a given year (as validated by `datetime.date`). -/
def daysInMonth (y m : Nat) : Nat := dimL (leapYear y) m

/-- Cumulative days before month `m` in a non-leap year. -/
def monthOffset (m : Nat) : Nat :=
  [0, 31, 59, 90, 120, 151, 181, 212, 243, 273, 304, 334].getD (m - 1) 0

/-- Leap-day adjustment for months from March on. -/
def adjL (L : Bool) (m : Nat) : Nat := if 3 ≤ m ∧ L = true then 1 else 0

/-- Days in all years strictly before year `y`. -/
def yearDays (y : Nat) : Nat :=
  365 * (y - 1) + (y - 1) / 4 - (y - 1) / 100 + (y - 1) / 400

/-- Proleptic-Gregorian ordinal of a date (0001-01-01 has ordinal 1),
mirroring Python `date.toordinal`. -/
def Ymd.toOrd (a : Ymd) : Nat :=
  yearDays a.y + monthOffset a.m + adjL (leapYear a.y) a.m + a.d

/-- Weekday with Monday = 0 .. Sunday = 6, mirroring Python
`date.weekday()` (0001-01-01 was a Monday). -/
def Ymd.weekday (a : Ymd) : Nat := (a.toOrd + 6) % 7

/-- Next calendar day, mirroring `cur + timedelta(days=1)`. -/
def Ymd.succ (a : Ymd) : Ymd :=
  if a.d < daysInMonth a.y a.m then ⟨a.y, a.m, a.d + 1⟩
  else if a.m < 12 then ⟨a.y, a.m + 1, 1⟩
  else ⟨a.y + 1, 1, 1⟩

/-- The `n`-fold successor of a date. -/
def Ymd.succN : Nat → Ymd → Ymd
  | 0, a => a
  | n + 1, a => Ymd.succN n a.succ

/-- Python `date` comparison: lexicographic on (year, month, day). -/
def Ymd.lt (a b : Ymd) : Prop :=
  a.y < b.y ∨ (a.y = b.y ∧ (a.m < b.m ∨ (a.m = b.m ∧ a.d < b.d)))

instance (a b : Ymd) : Decidable (Ymd.lt a b) :=
  decidable_of_iff (a.y < b.y ∨ (a.y = b.y ∧ (a.m < b.m ∨ (a.m = b.m ∧ a.d < b.d)))) Iff.rfl

/-- Non-strict date comparison. -/
def Ymd.le (a b : Ymd) : Prop := Ymd.lt a b ∨ a = b

instance (a b : Ymd) : Decidable (Ymd.le a b) := by
  unfold Ymd.le
  exact inferInstance

/-- A well-formed calendar date (what `datetime.date(y, m, d)` accepts,
apart from the 9999 upper bound on years, tracked separately). -/
def Ymd.Valid (a : Ymd) : Prop :=
  1 ≤ a.y ∧ 1 ≤ a.m ∧ a.m ≤ 12 ∧ 1 ≤ a.d ∧ a.d ≤ daysInMonth a.y a.m

instance (a : Ymd) : Decidable a.Valid := by
  unfold Ymd.Valid
  exact inferInstance

/-- Python `datetime` comparison: chronological (lexicographic on date
then time). -/
def Instant.le (a b : Instant) : Prop :=
  Ymd.lt a.date b.date ∨ (a.date = b.date ∧ a.tmin ≤ b.tmin)

instance (a b : Instant) : Decidable (Instant.le a b) := by
  unfold Instant.le
  exact inferInstance

/-- Round a rational to the nearest integer, ties to even (the rounding
of Python `round`). -/
def rhe (q : ℚ) : ℤ :=
  if q - (⌊q⌋ : ℚ) < 1 / 2 then ⌊q⌋
  else if 1 / 2 < q - (⌊q⌋ : ℚ) then ⌊q⌋ + 1
  else if ⌊q⌋ % 2 = 0 then ⌊q⌋ else ⌊q⌋ + 1

/-- Python `round(x, 2)` on the rational model of floats. -/
def round2 (q : ℚ) : ℚ := (rhe (q * 100) : ℚ) / 100

/-- Python `round(x, 1)` on the rational model of floats. -/
def round1 (q : ℚ) : ℚ := (rhe (q * 10) : ℚ) / 10

/-- Embeds `WORK_HOURS = 8.5` from `src/app.py`. -/
def WORK_HOURS : ℚ := 8.5

/-- Embeds `HORA_INICIO` (`WORK_START = "08:00"`) as minutes since
midnight; the source name carries a suffix the verification toolchain
reserves, hence the shortened Lean name. -/
def HORA_INI : Nat := 8 * 60

/-- Embeds `HORA_FIN` (`WORK_END = "16:30"`) as minutes since midnight. -/
def HORA_FIN : Nat := 16 * 60 + 30

/-- The character for a decimal digit `n < 10`. -/
def digitChar (n : Nat) : Char := Char.ofNat (48 + n)

/-- Zero-padded 2-digit rendering. -/
def pad2 (n : Nat) : List Char := [digitChar (n / 10 % 10), digitChar (n % 10)]

/-- Zero-padded 4-digit rendering. -/
def pad4 (n : Nat) : List Char :=
  [digitChar (n / 1000 % 10), digitChar (n / 100 % 10), digitChar (n / 10 % 10),
    digitChar (n % 10)]

/-- Python `d.strftime("%Y-%m-%d")`: canonical date text. -/
def Ymd.strf (a : Ymd) : String :=
  String.mk (pad4 a.y ++ '-' :: (pad2 a.m ++ '-' :: pad2 a.d))

/-- Embeds `is_business_day` from `src/app.py`: weekday ≥ 5 (Saturday/Sunday)
or canonical string in the holiday set fails closed to `false`. -/
def is_business_day (hol : List String) (d : Ymd) : Bool :=
  if 5 ≤ d.weekday then false
  else if d.strf ∈ hol then false
  else true

/-- Embeds `clamp_to_workday` from `src/app.py`: pull an instant into the work
window of its own day. -/
def clamp_to_workday (t : Instant) : Instant :=
  if t.tmin < HORA_INI then ⟨t.date, HORA_INI⟩
  else if HORA_FIN < t.tmin then ⟨t.date, HORA_FIN⟩
  else t

/-- The `while cur < end_dt.date()` loop of `business_hours_between`,
with the number of remaining iterations made explicit (it equals the
ordinal distance from `cur` to the end date). -/
def bh_loop (hol : List String) : Nat → Ymd → ℚ
  | 0, _ => 0
  | n + 1, cur =>
      (if is_business_day hol cur then WORK_HOURS else 0) + bh_loop hol n cur.succ

/-- Embeds `business_hours_between` from `src/app.py`. -/
def business_hours_between (hol : List String) (d0 : Option Ymd)
    (end_dt : Option Instant) : ℚ :=
  match d0, end_dt with
  | some d0, some e =>
      let full := bh_loop hol (e.date.toOrd - d0.toOrd) d0
      let total :=
        if is_business_day hol e.date then
          let ec := clamp_to_workday e
          let delta : ℚ := ((ec.tmin : ℚ) - (HORA_INI : ℚ)) / 60
          if 0 < delta then full + min delta WORK_HOURS else full
        else full
      round2 total
  | _, _ => 0

/-- Whitespace test used by Python `str.strip`. -/
def isSpaceChar (c : Char) : Bool := c = ' ' || c = '\t' || c = '\n' || c = '\r'

/-- Python `str.strip()` on a character list. -/
def stripChars (cs : List Char) : List Char :=
  ((cs.dropWhile isSpaceChar).reverse.dropWhile isSpaceChar).reverse

/-- Read up to `fuel` leading decimal digits, returning the value, the
number of digits read and the rest (the greedy number fields of
CPython's `strptime` regexes). -/
def readNumAux : Nat → Nat → Nat → List Char → Nat × Nat × List Char
  | 0, acc, cnt, rest => (acc, cnt, rest)
  | _ + 1, acc, cnt, [] => (acc, cnt, [])
  | fuel + 1, acc, cnt, c :: rest =>
      if c.isDigit then readNumAux fuel (acc * 10 + (c.toNat - 48)) (cnt + 1) rest
      else (acc, cnt, c :: rest)

/-- Expect a literal separator character. -/
def expectChar (c : Char) : List Char → Option (List Char)
  | x :: rest => if x = c then some rest else none
  | [] => none

/-- Field pattern of `strptime(s, "%Y-%m-%d")`: a 4-digit year, then 1-2
digit month in 1..12 and day in 1..31, with no trailing text. -/
def rexYMD (cs : List Char) : Option (Nat × Nat × Nat) :=
  match readNumAux 4 0 0 cs with
  | (y, cy, r1) =>
      if cy = 4 then
        (expectChar '-' r1).bind fun r2 =>
          match readNumAux 2 0 0 r2 with
          | (m, cm, r3) =>
              if 1 ≤ cm ∧ 1 ≤ m ∧ m ≤ 12 then
                (expectChar '-' r3).bind fun r4 =>
                  match readNumAux 2 0 0 r4 with
                  | (d, cd, r5) =>
                      if 1 ≤ cd ∧ 1 ≤ d ∧ d ≤ 31 ∧ r5 = [] then some (y, m, d)
                      else none
              else none
      else none

/-- Field pattern of `strptime(s, "%d/%m/%Y")`. -/
def rexDMY (cs : List Char) : Option (Nat × Nat × Nat) :=
  match readNumAux 2 0 0 cs with
  | (d, cd, r1) =>
      if 1 ≤ cd ∧ 1 ≤ d ∧ d ≤ 31 then
        (expectChar '/' r1).bind fun r2 =>
          match readNumAux 2 0 0 r2 with
          | (m, cm, r3) =>
              if 1 ≤ cm ∧ 1 ≤ m ∧ m ≤ 12 then
                (expectChar '/' r3).bind fun r4 =>
                  match readNumAux 4 0 0 r4 with
                  | (y, cy, r5) =>
                      if cy = 4 ∧ r5 = [] then some (y, m, d) else none
              else none
      else none

/-- Field pattern of `strptime(s, "%m/%d/%Y")`. -/
def rexMDY (cs : List Char) : Option (Nat × Nat × Nat) :=
  match readNumAux 2 0 0 cs with
  | (m, cm, r1) =>
      if 1 ≤ cm ∧ 1 ≤ m ∧ m ≤ 12 then
        (expectChar '/' r1).bind fun r2 =>
          match readNumAux 2 0 0 r2 with
          | (d, cd, r3) =>
              if 1 ≤ cd ∧ 1 ≤ d ∧ d ≤ 31 then
                (expectChar '/' r3).bind fun r4 =>
                  match readNumAux 4 0 0 r4 with
                  | (y, cy, r5) =>
                      if cy = 4 ∧ r5 = [] then some (y, m, d) else none
              else none
      else none

/-- Date construction (`datetime.date(y, m, d)`): rejects out-of-range
components, otherwise builds the date. -/
def mkDateChecked (y m d : Nat) : Option Ymd :=
  if 1 ≤ y ∧ y ≤ 9999 ∧ 1 ≤ m ∧ m ≤ 12 ∧ 1 ≤ d ∧ d ≤ daysInMonth y m then
    some ⟨y, m, d⟩
  else none

/-- One `datetime.strptime(s, fmt)` attempt: regex match then date
construction; any failure is caught and yields `none`. -/
def tryFormat (rex : List Char → Option (Nat × Nat × Nat)) (cs : List Char) :
    Option Ymd :=
  (rex cs).bind fun t => mkDateChecked t.1 t.2.1 t.2.2

/-- Embeds `parse_fecha` from `src/app.py`: `None`/empty gives `None`; strip,
then try the formats `%Y-%m-%d`, `%d/%m/%Y`, `%m/%d/%Y` in order. -/
def parse_fecha (s : Option String) : Option Ymd :=
  match s with
  | none => none
  | some s =>
      if s.toList = [] then none
      else
        let cs := stripChars s.toList
        (tryFormat rexYMD cs).orElse fun _ =>
          (tryFormat rexDMY cs).orElse fun _ => tryFormat rexMDY cs

/-- Python exception outcomes of the validation helpers. -/
inductive PyErr where
  | valueError (msg : String)
  | typeError
deriving DecidableEq, Repr

/-- Message of the `ValueError` raised by `norm_fecha_txt`. -/
def invalidDateMsg : String := "Fecha invalida. Use AAAA-MM-DD o DD/MM/AAAA."

/-- Message of the `ValueError` raised by `validar_fechas`. -/
def orderMsg : String := "La salida no puede ser antes de la entrada."

/-- Embeds `norm_fecha_txt` from `src/app.py`. -/
def norm_fecha_txt (s : Option String) : Except PyErr (Option String) :=
  match s with
  | none => Except.ok none
  | some t =>
      if stripChars t.toList = [] then Except.ok none
      else
        match parse_fecha (some t) with
        | none => Except.error (PyErr.valueError invalidDateMsg)
        | some d => Except.ok (some d.strf)

/-- Python truthiness of an optional string (`None` and `""` falsy). -/
def optTruthy (s : Option String) : Bool :=
  match s with
  | none => false
  | some t => t != ""

/-- Embeds `validar_fechas` from `src/app.py`.  Note the comparison
`d_sal < d_ent` raises `TypeError` when `d_ent` is `None`. -/
def validar_fechas (fent fsal : Option String) :
    Except PyErr (Option String × Option String) :=
  match norm_fecha_txt fent with
  | Except.error e => Except.error e
  | Except.ok f_ent =>
      match (if optTruthy fsal then norm_fecha_txt fsal else Except.ok none) with
      | Except.error e => Except.error e
      | Except.ok f_sal =>
          let d_ent := parse_fecha f_ent
          let d_sal := if optTruthy f_sal then parse_fecha f_sal else none
          match d_sal with
          | none => Except.ok (f_ent, f_sal)
          | some ds =>
              match d_ent with
              | none => Except.error PyErr.typeError
              | some de =>
                  if Ymd.lt ds de then Except.error (PyErr.valueError orderMsg)
                  else Except.ok (f_ent, f_sal)

/-- A Python value that may reach `expected_hours` as the unit count. -/
inductive PyVal where
  | vint (i : ℤ)
  | vstr (s : String)
  | vnone
deriving DecidableEq, Repr

/-- Python truthiness. -/
def pyTruthy : PyVal → Bool
  | PyVal.vint i => i != 0
  | PyVal.vstr s => s != ""
  | PyVal.vnone => false

/-- Message of the `ValueError` raised by Python `int` on a bad string. -/
def intErrMsg : String := "invalid literal for int() with base 10"

/-- Value of a non-empty all-digit character list. -/
def digitsVal (cs : List Char) : Option Nat :=
  if cs ≠ [] ∧ cs.all Char.isDigit then
    some (cs.foldl (fun a c => a * 10 + (c.toNat - 48)) 0)
  else none

/-- Python `int(x)`: identity on ints, base-10 parse (with optional
sign, surrounding whitespace) on strings, `TypeError` on `None`. -/
def pyInt : PyVal → Except PyErr ℤ
  | PyVal.vint i => Except.ok i
  | PyVal.vnone => Except.error PyErr.typeError
  | PyVal.vstr s =>
      match stripChars s.toList with
      | '-' :: rest =>
          match digitsVal rest with
          | some n => Except.ok (-(n : ℤ))
          | none => Except.error (PyErr.valueError intErrMsg)
      | '+' :: rest =>
          match digitsVal rest with
          | some n => Except.ok (n : ℤ)
          | none => Except.error (PyErr.valueError intErrMsg)
      | cs =>
          match digitsVal cs with
          | some n => Except.ok (n : ℤ)
          | none => Except.error (PyErr.valueError intErrMsg)

/-- Embeds `RATIOS_H_PREDIO` from `src/app.py` (hours per unit per phase; the
source name ends in letters the verification toolchain reserves, hence
the shortened Lean name). -/
def RATIOS_H : List (String × ℚ) :=
  [("CAMPO", (5 * 8.5) / 30), ("ENTREGAS", 8.5 / 80), ("JURIDICO", 8.5 / 30),
    ("POSTCAMPO", 1 / 4.4)]

/-- Embeds `MIN_HORAS` from `src/app.py` (minimum hours per phase). -/
def MIN_HORAS : List (String × ℚ) :=
  [("CAMPO", 1), ("ENTREGAS", 0.5), ("JURIDICO", 0.5), ("POSTCAMPO", 0.5)]

/-- Embeds `expected_hours` from `src/app.py`. -/
def expected_hours (fase : String) (n : PyVal) : Except PyErr ℚ :=
  let faseU := fase.toUpper
  match pyInt (if pyTruthy n then n else PyVal.vint 0) with
  | Except.error e => Except.error e
  | Except.ok v =>
      let nn : ℤ := max v 0
      let h : ℚ := (nn : ℚ) * ((RATIOS_H.lookup faseU).getD 0)
      Except.ok (round2 (max h ((MIN_HORAS.lookup faseU).getD 0)))

/-- Embeds `real_hours` from `src/app.py`; `datetime.now()` is passed in
explicitly as `now`. -/
def real_hours (hol : List String) (now : Instant) (f_ent f_sal : Option String) :
    ℚ :=
  let d0 := parse_fecha f_ent
  let end_dt : Instant :=
    match f_sal with
    | some s =>
        if s != "" then
          match parse_fecha (some s) with
          | some d => ⟨d, HORA_FIN⟩
          | none => now
        else now
    | none => now
  match d0 with
  | none => 0
  | some d0 => business_hours_between hol (some d0) (some end_dt)

/-- Embeds `kpis_fila` from `src/app.py`: expected hours, rounded real hours,
progress percent (0 when expected is 0), over-expected alert. -/
def kpis_fila (hol : List String) (now : Instant) (fase : String) (n : PyVal)
    (f_ent f_sal : Option String) : Except PyErr (ℚ × ℚ × ℚ × Bool) :=
  match expected_hours fase n with
  | Except.error e => Except.error e
  | Except.ok h_esp =>
      let h_real := real_hours hol now f_ent f_sal
      Except.ok (h_esp, round2 h_real,
        (if h_esp = 0 then 0 else round1 (h_real / h_esp * 100)),
        decide (h_esp < h_real))

/-- Modelled from the spec (section 4.3): the end-day partial
contribution — clamp the end instant into the work window, take the
hours elapsed from the window start, add `min(elapsed, daily_hours)`
when positive, and nothing on a non-business day. -/
def specEndDay (hol : List String) (e : Instant) : ℚ :=
  if is_business_day hol e.date then
    let elapsed : ℚ := (((clamp_to_workday e).tmin : ℚ) - (HORA_INI : ℚ)) / 60
    if 0 < elapsed then min elapsed WORK_HOURS else 0
  else 0

/-- The first `n` calendar days starting at `d0`, as a finite set. -/
def daysRange (d0 : Ymd) (n : Nat) : Finset Ymd :=
  (Finset.range n).image fun i => Ymd.succN i d0

/-- Modelled from the spec (section 4.4): expected hours for a phase
and a (already coerced, non-negative) unit count. -/
def specExpected (fase : String) (n : Nat) : ℚ :=
  round2 (max ((n : ℚ) * ((RATIOS_H.lookup fase.toUpper).getD 0))
    ((MIN_HORAS.lookup fase.toUpper).getD 0))

/-! ### Rounding lemmas -/

theorem rhe_bounds (q : ℚ) : ⌊q⌋ ≤ rhe q ∧ rhe q ≤ ⌊q⌋ + 1 := by
  unfold rhe
  split_ifs <;> omega

theorem rhe_mono {p q : ℚ} (h : p ≤ q) : rhe p ≤ rhe q := by
  rcases lt_or_eq_of_le (Int.floor_le_floor h) with hf | hf
  · calc rhe p ≤ ⌊p⌋ + 1 := (rhe_bounds p).2
    _ ≤ ⌊q⌋ := by omega
    _ ≤ rhe q := (rhe_bounds q).1
  · unfold rhe
    rw [hf]
    split_ifs <;> first | omega | linarith

theorem round2_mono {p q : ℚ} (h : p ≤ q) : round2 p ≤ round2 q := by
  unfold round2
  have h2 := rhe_mono (by linarith : p * 100 ≤ q * 100)
  have h3 : ((rhe (p * 100) : ℤ) : ℚ) ≤ ((rhe (q * 100) : ℤ) : ℚ) := by exact_mod_cast h2
  linarith

theorem rhe_int (z : ℤ) : rhe (z : ℚ) = z := by
  unfold rhe
  rw [Int.floor_intCast]
  split_ifs with h1 h2 <;> [rfl; skip; rfl; skip] <;> simp at h2 ⊢ <;> linarith

theorem round2_exact {q : ℚ} (z : ℤ) (h : q * 100 = (z : ℚ)) : round2 q = q := by
  unfold round2
  rw [h, rhe_int]
  field_simp at h ⊢
  linarith

/-! ### Calendar arithmetic lemmas -/

theorem monthStep : ∀ (L : Bool) (m : Nat), m < 12 → 1 ≤ m →
    monthOffset (m + 1) + adjL L (m + 1) = monthOffset m + adjL L m + dimL L m := by
  decide

theorem monthBound : ∀ (L : Bool) (m1 : Nat), m1 < 12 → ∀ m2, m2 ≤ 12 → 1 ≤ m1 → m1 < m2 →
    monthOffset m1 + adjL L m1 + dimL L m1 ≤ monthOffset m2 + adjL L m2 := by
  decide

theorem monthMax : ∀ (L : Bool) (m : Nat), m ≤ 12 → 1 ≤ m →
    monthOffset m + adjL L m + dimL L m ≤ 365 + (if L = true then 1 else 0) := by
  decide

theorem leapYear_iff (y : Nat) :
    leapYear y = true ↔ ((y % 4 = 0 ∧ y % 100 ≠ 0) ∨ y % 400 = 0) := by
  unfold leapYear
  simp [Bool.or_eq_true, Bool.and_eq_true, beq_iff_eq, bne_iff_ne]

set_option maxHeartbeats 1600000 in
theorem yearStep (y : Nat) (hy : 1 ≤ y) :
    yearDays (y + 1) = yearDays y + 365 + (if leapYear y = true then 1 else 0) := by
  rcases em ((y % 4 = 0 ∧ y % 100 ≠ 0) ∨ y % 400 = 0) with h | h
  · rw [if_pos ((leapYear_iff y).mpr h)]
    unfold yearDays
    rcases h with ⟨h4, h100⟩ | h400
    · omega
    · omega
  · rw [if_neg fun hc => h ((leapYear_iff y).mp hc)]
    unfold yearDays
    push_neg at h
    rcases eq_or_ne (y % 4) 0 with h4 | h4
    · have h100 := h.1 h4
      have h400 := h.2
      omega
    · omega

set_option maxHeartbeats 800000 in
theorem yearDays_le_succ (y : Nat) : yearDays y ≤ yearDays (y + 1) := by
  unfold yearDays
  omega

theorem yearDays_mono : Monotone yearDays :=
  monotone_nat_of_le_succ yearDays_le_succ

theorem dim_ge_1 (y m : Nat) : 1 ≤ daysInMonth y m := by
  unfold daysInMonth dimL
  split_ifs <;> omega

theorem dim_le_31 (y m : Nat) : daysInMonth y m ≤ 31 := by
  unfold daysInMonth dimL
  split_ifs <;> omega

theorem toOrd_succ {a : Ymd} (h : a.Valid) : a.succ.toOrd = a.toOrd + 1 := by
  obtain ⟨y, m, d⟩ := a
  obtain ⟨hy, hm1, hm2, hd1, hd2⟩ := h
  simp only at hy hm1 hm2 hd1 hd2
  unfold daysInMonth at hd2
  unfold Ymd.succ daysInMonth
  split_ifs with h1 h2
  · simp only [Ymd.toOrd]
    omega
  · simp only at h1 h2
    have hstep := monthStep (leapYear y) m h2 hm1
    simp only [Ymd.toOrd]
    omega
  · simp only at h1 h2
    have hm : m = 12 := by omega
    subst hm
    have h31 : dimL (leapYear y) 12 = 31 := by
      cases leapYear y <;> decide
    have hd : d = 31 := by omega
    subst hd
    have hstep := yearStep y hy
    have hadj1 : ∀ L, adjL L 1 = 0 := by decide
    have hadj12 : ∀ L, adjL L 12 = if L = true then 1 else 0 := by decide
    simp only [Ymd.toOrd, hadj1, hadj12]
    have hoff12 : monthOffset 12 = 334 := rfl
    have hoff1 : monthOffset 1 = 0 := rfl
    rw [hoff12, hoff1]
    omega

theorem succ_valid {a : Ymd} (h : a.Valid) : a.succ.Valid := by
  obtain ⟨y, m, d⟩ := a
  obtain ⟨hy, hm1, hm2, hd1, hd2⟩ := h
  simp only at hy hm1 hm2 hd1 hd2
  have g1 := dim_ge_1 y (m + 1)
  have g2 := dim_ge_1 (y + 1) 1
  unfold Ymd.succ
  split_ifs with h1 h2 <;> (try simp only at h2) <;> simp only at h1 <;>
    unfold Ymd.Valid <;> dsimp only <;>
      exact ⟨by omega, by omega, by omega, by omega, by omega⟩

theorem succN_valid : ∀ (n : Nat) {a : Ymd}, a.Valid → (Ymd.succN n a).Valid
  | 0, _, h => h
  | n + 1, _, h => succN_valid n (succ_valid h)

theorem toOrd_succN : ∀ (n : Nat) {a : Ymd}, a.Valid →
    (Ymd.succN n a).toOrd = a.toOrd + n
  | 0, _, _ => rfl
  | n + 1, a, h => by
      have h1 := toOrd_succN n (succ_valid h)
      have h2 := toOrd_succ h
      simp only [Ymd.succN] at h1 ⊢
      omega

theorem toOrd_lt {a b : Ymd} (ha : a.Valid) (hb : b.Valid) (h : Ymd.lt a b) :
    a.toOrd < b.toOrd := by
  obtain ⟨y1, m1, d1⟩ := a
  obtain ⟨y2, m2, d2⟩ := b
  obtain ⟨hy1, hm11, hm12, hd11, hd12⟩ := ha
  obtain ⟨hy2, hm21, hm22, hd21, hd22⟩ := hb
  simp only at hy1 hm11 hm12 hd11 hd12 hy2 hm21 hm22 hd21 hd22
  unfold daysInMonth at hd12 hd22
  rcases h with hy | ⟨hy, hm | ⟨hm, hd⟩⟩ <;> simp only at *
  · have hA := monthMax (leapYear y1) m1 hm12 hm11
    have hB := yearStep y1 hy1
    have hC := yearDays_mono (show y1 + 1 ≤ y2 by omega)
    simp only [Ymd.toOrd]
    omega
  · subst hy
    have hB := monthBound (leapYear y1) m1 (by omega) m2 hm22 hm11 hm
    simp only [Ymd.toOrd]
    omega
  · subst hy
    subst hm
    simp only [Ymd.toOrd]
    omega

theorem lt_trichot (a b : Ymd) : Ymd.lt a b ∨ a = b ∨ Ymd.lt b a := by
  obtain ⟨y1, m1, d1⟩ := a
  obtain ⟨y2, m2, d2⟩ := b
  simp only [Ymd.lt, Ymd.mk.injEq]
  omega

theorem toOrd_inj {a b : Ymd} (ha : a.Valid) (hb : b.Valid)
    (h : a.toOrd = b.toOrd) : a = b := by
  rcases lt_trichot a b with hl | he | hg
  · have := toOrd_lt ha hb hl
    omega
  · exact he
  · have := toOrd_lt hb ha hg
    omega

theorem lt_iff_ord {a b : Ymd} (ha : a.Valid) (hb : b.Valid) :
    Ymd.lt a b ↔ a.toOrd < b.toOrd := by
  constructor
  · exact toOrd_lt ha hb
  · intro h
    rcases lt_trichot a b with hl | he | hg
    · exact hl
    · subst he
      omega
    · have := toOrd_lt hb ha hg
      omega

theorem le_iff_ord {a b : Ymd} (ha : a.Valid) (hb : b.Valid) :
    Ymd.le a b ↔ a.toOrd ≤ b.toOrd := by
  unfold Ymd.le
  constructor
  · rintro (hl | he)
    · exact le_of_lt (toOrd_lt ha hb hl)
    · subst he
      exact le_refl _
  · intro h
    rcases lt_trichot a b with hl | he | hg
    · exact Or.inl hl
    · exact Or.inr he
    · have := toOrd_lt hb ha hg
      omega

/-! ### Business-hours loop lemmas -/

theorem bh_loop_eq_sum (hol : List String) :
    ∀ (n : Nat) (cur : Ymd), bh_loop hol n cur
      = ∑ i ∈ Finset.range n,
          (if is_business_day hol (Ymd.succN i cur) then WORK_HOURS else 0)
  | 0, _ => by simp [bh_loop]
  | n + 1, cur => by
      rw [Finset.sum_range_succ']
      have ih := bh_loop_eq_sum hol n cur.succ
      simp only [bh_loop, Ymd.succN]
      rw [ih]
      ring

theorem succN_inj_on {d0 : Ymd} (h0 : d0.Valid) {i j : Nat}
    (h : Ymd.succN i d0 = Ymd.succN j d0) : i = j := by
  have hi := toOrd_succN i h0
  have hj := toOrd_succN j h0
  rw [h] at hi
  omega

theorem mem_daysRange {d0 eD : Ymd} (h0 : d0.Valid) (hE : eD.Valid) (dt : Ymd) :
    dt ∈ daysRange d0 (eD.toOrd - d0.toOrd) ↔
      (dt.Valid ∧ Ymd.le d0 dt ∧ Ymd.lt dt eD) := by
  unfold daysRange
  simp only [Finset.mem_image, Finset.mem_range]
  constructor
  · rintro ⟨i, hi, rfl⟩
    have hv := succN_valid i h0
    have ho := toOrd_succN i h0
    refine ⟨hv, ?_, ?_⟩
    · rw [le_iff_ord h0 hv]
      omega
    · rw [lt_iff_ord hv hE]
      omega
  · rintro ⟨hv, hle, hlt⟩
    rw [le_iff_ord h0 hv] at hle
    rw [lt_iff_ord hv hE] at hlt
    refine ⟨dt.toOrd - d0.toOrd, by omega, ?_⟩
    have hv2 := succN_valid (dt.toOrd - d0.toOrd) h0
    have ho := toOrd_succN (dt.toOrd - d0.toOrd) h0
    exact toOrd_inj hv2 hv (by omega)

theorem sum_eq_card_mul (hol : List String) {d0 : Ymd} (h0 : d0.Valid) (n : Nat) :
    ∑ i ∈ Finset.range n,
        (if is_business_day hol (Ymd.succN i d0) then WORK_HOURS else 0)
      = WORK_HOURS
          * (((daysRange d0 n).filter fun x => is_business_day hol x = true).card : ℚ) := by
  have hinj : Set.InjOn (fun i => Ymd.succN i d0)
      ((Finset.range n).filter fun a => is_business_day hol (Ymd.succN a d0) = true) :=
    fun i _ j _ hij => succN_inj_on h0 hij
  unfold daysRange
  rw [Finset.filter_image, Finset.card_image_of_injOn hinj, ← Finset.sum_filter,
    Finset.sum_const, nsmul_eq_mul, mul_comm]

/-- Unfolded form of `business_hours_between` on present arguments. -/
theorem bhb_eq (hol : List String) (d0 : Ymd) (e : Instant) :
    business_hours_between hol (some d0) (some e)
      = round2 (bh_loop hol (e.date.toOrd - d0.toOrd) d0 + specEndDay hol e) := by
  simp only [business_hours_between, specEndDay]
  congr 1
  split_ifs <;> ring

theorem bhb_none_left (hol : List String) (e : Option Instant) :
    business_hours_between hol none e = 0 := rfl

theorem bhb_none_right (hol : List String) (d : Option Ymd) :
    business_hours_between hol d none = 0 := by
  cases d <;> rfl

theorem WORK_HOURS_pos : (0 : ℚ) < WORK_HOURS := by norm_num [WORK_HOURS]

theorem specEndDay_nonneg (hol : List String) (e : Instant) :
    0 ≤ specEndDay hol e := by
  simp only [specEndDay]
  split_ifs with h1 h2
  · exact le_min (le_of_lt h2) (le_of_lt WORK_HOURS_pos)
  · exact le_refl 0
  · exact le_refl 0

theorem specEndDay_le (hol : List String) (e : Instant) :
    specEndDay hol e ≤ (if is_business_day hol e.date then WORK_HOURS else 0) := by
  simp only [specEndDay]
  split_ifs with h1 h2
  · exact min_le_right _ _
  · exact le_of_lt WORK_HOURS_pos
  · exact le_refl 0

theorem clamp_mono {e1 e2 : Instant} (ht : e1.tmin ≤ e2.tmin) :
    (clamp_to_workday e1).tmin ≤ (clamp_to_workday e2).tmin := by
  unfold clamp_to_workday HORA_INI HORA_FIN
  split_ifs <;> (try dsimp only) <;> omega

theorem specEndDay_mono {hol : List String} {e1 e2 : Instant}
    (hd : e1.date = e2.date) (ht : e1.tmin ≤ e2.tmin) :
    specEndDay hol e1 ≤ specEndDay hol e2 := by
  have hc := @clamp_mono e1 e2 ht
  have hcq : (((clamp_to_workday e1).tmin : ℚ) - (HORA_INI : ℚ)) / 60
      ≤ (((clamp_to_workday e2).tmin : ℚ) - (HORA_INI : ℚ)) / 60 := by
    have h : ((clamp_to_workday e1).tmin : ℚ) ≤ ((clamp_to_workday e2).tmin : ℚ) := Nat.cast_le.mpr hc
    linarith
  simp only [specEndDay]
  rw [hd]
  split_ifs <;> first
    | exact min_le_min hcq (le_refl _)
    | exact absurd (lt_of_lt_of_le (by assumption) hcq) (by assumption)
    | exact le_min (le_of_lt (by assumption)) (le_of_lt WORK_HOURS_pos)
    | exact le_refl 0

/-- The unrounded total of `business_hours_between` is monotone in the
end instant, provided the start date is on or before the first end
instant's date. -/
theorem total_mono (hol : List String) {d0 : Ymd} {e1 e2 : Instant}
    (h0 : d0.Valid) (h1 : e1.date.Valid) (h2 : e2.date.Valid)
    (hle : Instant.le e1 e2) (hstart : Ymd.le d0 e1.date) :
    bh_loop hol (e1.date.toOrd - d0.toOrd) d0 + specEndDay hol e1
      ≤ bh_loop hol (e2.date.toOrd - d0.toOrd) d0 + specEndDay hol e2 := by
  have ho01 : d0.toOrd ≤ e1.date.toOrd := (le_iff_ord h0 h1).mp hstart
  rcases hle with hdlt | ⟨hdeq, htle⟩
  · have ho12 : e1.date.toOrd < e2.date.toOrd := toOrd_lt h1 h2 hdlt
    have hn : e1.date.toOrd - d0.toOrd < e2.date.toOrd - d0.toOrd := by omega
    rw [bh_loop_eq_sum, bh_loop_eq_sum]
    have hv1 := succN_valid (e1.date.toOrd - d0.toOrd) h0
    have hoo := toOrd_succN (e1.date.toOrd - d0.toOrd) h0
    have heq : Ymd.succN (e1.date.toOrd - d0.toOrd) d0 = e1.date :=
      toOrd_inj hv1 h1 (by omega)
    have hsplit := Finset.sum_range_succ
      (fun i => if is_business_day hol (Ymd.succN i d0) then WORK_HOURS else 0)
      (e1.date.toOrd - d0.toOrd)
    have hmono : ∑ i ∈ Finset.range (e1.date.toOrd - d0.toOrd + 1),
          (if is_business_day hol (Ymd.succN i d0) then WORK_HOURS else 0)
        ≤ ∑ i ∈ Finset.range (e2.date.toOrd - d0.toOrd),
            (if is_business_day hol (Ymd.succN i d0) then WORK_HOURS else 0) := by
      apply Finset.sum_le_sum_of_subset_of_nonneg
      · exact Finset.range_subset.mpr (by omega)
      · intro i _ _
        split_ifs
        · exact le_of_lt WORK_HOURS_pos
        · exact le_refl 0
    have hp1 := specEndDay_le hol e1
    have hp2 := specEndDay_nonneg hol e2
    rw [heq] at hsplit
    linarith [hsplit, hmono, hp1, hp2]
  · rw [hdeq]
    exact add_le_add_left (specEndDay_mono hdeq htle) _

/-! ### Concrete evaluations of the business-hours engine -/

theorem specEndDay_of_clamp {hol : List String} {e : Instant} {c : Nat}
    (hb : is_business_day hol e.date = true) (hc : (clamp_to_workday e).tmin = c)
    (h1 : HORA_INI < c) (h2 : ((c : ℚ) - (HORA_INI : ℚ)) / 60 ≤ WORK_HOURS) :
    specEndDay hol e = ((c : ℚ) - (HORA_INI : ℚ)) / 60 := by
  have h1q : (HORA_INI : ℚ) < (c : ℚ) := by exact_mod_cast h1
  simp only [specEndDay, hb, if_true, hc]
  rw [if_pos (by linarith), min_eq_left h2]

theorem specEndDay_of_not_biz {hol : List String} {e : Instant}
    (hb : is_business_day hol e.date = false) : specEndDay hol e = 0 := by
  simp [specEndDay, hb]

theorem bhb_eval_mon_wed :
    business_hours_between [] (some ⟨2025, 6, 2⟩) (some ⟨⟨2025, 6, 4⟩, 600⟩) = 19 := by
  rw [bhb_eq]
  have hsp : specEndDay [] ⟨⟨2025, 6, 4⟩, 600⟩ = ((600 : ℚ) - (HORA_INI : ℚ)) / 60 :=
    specEndDay_of_clamp (by decide) (by decide) (by decide)
      (by norm_num [WORK_HOURS, HORA_INI])
  rw [hsp]
  have hfuel : (⟨⟨2025, 6, 4⟩, 600⟩ : Instant).date.toOrd - Ymd.toOrd ⟨2025, 6, 2⟩ = 2 := by
    decide
  rw [hfuel, bh_loop_eq_sum]
  rw [Finset.sum_range_succ, Finset.sum_range_succ, Finset.sum_range_zero]
  rw [show Ymd.succN 0 ⟨2025, 6, 2⟩ = ⟨2025, 6, 2⟩ from rfl]
  rw [show Ymd.succN 1 ⟨2025, 6, 2⟩ = ⟨2025, 6, 3⟩ from by decide]
  rw [show is_business_day [] ⟨2025, 6, 2⟩ = true from by decide]
  rw [show is_business_day [] ⟨2025, 6, 3⟩ = true from by decide]
  simp only [if_true]
  rw [show (0 + WORK_HOURS + WORK_HOURS + ((600 : ℚ) - (HORA_INI : ℚ)) / 60 : ℚ) = 19 from
    by norm_num [WORK_HOURS, HORA_INI]]
  exact round2_exact 1900 (by norm_num)

theorem bhb_eval_mon_wed_hol :
    business_hours_between ["2025-06-03"] (some ⟨2025, 6, 2⟩) (some ⟨⟨2025, 6, 4⟩, 600⟩)
      = 21 / 2 := by
  rw [bhb_eq]
  have hsp : specEndDay ["2025-06-03"] ⟨⟨2025, 6, 4⟩, 600⟩
      = ((600 : ℚ) - (HORA_INI : ℚ)) / 60 :=
    specEndDay_of_clamp (by decide) (by decide) (by decide)
      (by norm_num [WORK_HOURS, HORA_INI])
  rw [hsp]
  have hfuel : (⟨⟨2025, 6, 4⟩, 600⟩ : Instant).date.toOrd - Ymd.toOrd ⟨2025, 6, 2⟩ = 2 := by
    decide
  rw [hfuel, bh_loop_eq_sum]
  rw [Finset.sum_range_succ, Finset.sum_range_succ, Finset.sum_range_zero]
  rw [show Ymd.succN 0 ⟨2025, 6, 2⟩ = ⟨2025, 6, 2⟩ from rfl]
  rw [show Ymd.succN 1 ⟨2025, 6, 2⟩ = ⟨2025, 6, 3⟩ from by decide]
  rw [show is_business_day ["2025-06-03"] ⟨2025, 6, 2⟩ = true from by decide]
  rw [show is_business_day ["2025-06-03"] ⟨2025, 6, 3⟩ = false from by decide]
  simp only [if_true, Bool.false_eq_true, if_false]
  rw [show (0 + WORK_HOURS + 0 + ((600 : ℚ) - (HORA_INI : ℚ)) / 60 : ℚ) = 21 / 2 from
    by norm_num [WORK_HOURS, HORA_INI]]
  exact round2_exact 1050 (by norm_num)

theorem bhb_eval_rev_wed :
    business_hours_between [] (some ⟨2025, 6, 10⟩) (some ⟨⟨2025, 6, 4⟩, 600⟩) = 2 := by
  rw [bhb_eq]
  have hsp : specEndDay [] ⟨⟨2025, 6, 4⟩, 600⟩ = ((600 : ℚ) - (HORA_INI : ℚ)) / 60 :=
    specEndDay_of_clamp (by decide) (by decide) (by decide)
      (by norm_num [WORK_HOURS, HORA_INI])
  rw [hsp]
  have hfuel : (⟨⟨2025, 6, 4⟩, 600⟩ : Instant).date.toOrd - Ymd.toOrd ⟨2025, 6, 10⟩ = 0 := by
    decide
  rw [hfuel, bh_loop_eq_sum, Finset.sum_range_zero]
  rw [show (0 + ((600 : ℚ) - (HORA_INI : ℚ)) / 60 : ℚ) = 2 from
    by norm_num [HORA_INI]]
  exact round2_exact 200 (by norm_num)

theorem bhb_eval_rev_fri :
    business_hours_between [] (some ⟨2025, 6, 10⟩) (some ⟨⟨2025, 6, 6⟩, 990⟩) = 17 / 2 := by
  rw [bhb_eq]
  have hsp : specEndDay [] ⟨⟨2025, 6, 6⟩, 990⟩ = ((990 : ℚ) - (HORA_INI : ℚ)) / 60 :=
    specEndDay_of_clamp (by decide) (by decide) (by decide)
      (by norm_num [WORK_HOURS, HORA_INI])
  rw [hsp]
  have hfuel : (⟨⟨2025, 6, 6⟩, 990⟩ : Instant).date.toOrd - Ymd.toOrd ⟨2025, 6, 10⟩ = 0 := by
    decide
  rw [hfuel, bh_loop_eq_sum, Finset.sum_range_zero]
  rw [show (0 + ((990 : ℚ) - (HORA_INI : ℚ)) / 60 : ℚ) = 17 / 2 from
    by norm_num [HORA_INI]]
  exact round2_exact 850 (by norm_num)

theorem bhb_eval_rev_sat :
    business_hours_between [] (some ⟨2025, 6, 10⟩) (some ⟨⟨2025, 6, 7⟩, 600⟩) = 0 := by
  rw [bhb_eq]
  rw [specEndDay_of_not_biz (by decide)]
  have hfuel : (⟨⟨2025, 6, 7⟩, 600⟩ : Instant).date.toOrd - Ymd.toOrd ⟨2025, 6, 10⟩ = 0 := by
    decide
  rw [hfuel, bh_loop_eq_sum, Finset.sum_range_zero]
  rw [show ((0 : ℚ) + 0 : ℚ) = 0 from by norm_num]
  exact round2_exact 0 (by norm_num)

/-! ### Parser lemmas -/

theorem digitChar_isDigit {x : Nat} (h : x < 10) : (digitChar x).isDigit = true := by
  interval_cases x <;> decide

theorem digitChar_toNat {x : Nat} (h : x < 10) : (digitChar x).toNat = 48 + x := by
  interval_cases x <;> decide

theorem digitChar_not_space {x : Nat} (h : x < 10) :
    isSpaceChar (digitChar x) = false := by
  interval_cases x <;> decide

theorem dropWhile_all_false {p : Char → Bool} :
    ∀ {l : List Char}, (∀ c ∈ l, p c = false) → l.dropWhile p = l := by
  intro l h
  cases l with
  | nil => rfl
  | cons c t => simp [List.dropWhile_cons, h c (by simp)]

theorem stripChars_of_no_space {l : List Char}
    (h : ∀ c ∈ l, isSpaceChar c = false) : stripChars l = l := by
  unfold stripChars
  rw [dropWhile_all_false h,
    dropWhile_all_false (fun c hc => h c (List.mem_reverse.mp hc)),
    List.reverse_reverse]

theorem readNum_step {fuel acc cnt : Nat} {c : Char} {rest : List Char}
    (h : c.isDigit = true) :
    readNumAux (fuel + 1) acc cnt (c :: rest)
      = readNumAux fuel (acc * 10 + (c.toNat - 48)) (cnt + 1) rest := by
  simp [readNumAux, h]

theorem readNum_zero {acc cnt : Nat} {rest : List Char} :
    readNumAux 0 acc cnt rest = (acc, cnt, rest) := rfl

theorem strf_parse {a : Ymd} (hv : a.Valid) (h9 : a.y ≤ 9999) :
    parse_fecha (some a.strf) = some a := by
  obtain ⟨y, m, d⟩ := a
  obtain ⟨hy, hm1, hm2, hd1, hd2⟩ := hv
  simp only at hy hm1 hm2 hd1 hd2 h9
  have hd31 : d ≤ 31 := le_trans hd2 (dim_le_31 y m)
  have q1 : y / 1000 % 10 < 10 := Nat.mod_lt _ (by norm_num)
  have q2 : y / 100 % 10 < 10 := Nat.mod_lt _ (by norm_num)
  have q3 : y / 10 % 10 < 10 := Nat.mod_lt _ (by norm_num)
  have q4 : y % 10 < 10 := Nat.mod_lt _ (by norm_num)
  have q5 : m / 10 % 10 < 10 := Nat.mod_lt _ (by norm_num)
  have q6 : m % 10 < 10 := Nat.mod_lt _ (by norm_num)
  have q7 : d / 10 % 10 < 10 := Nat.mod_lt _ (by norm_num)
  have q8 : d % 10 < 10 := Nat.mod_lt _ (by norm_num)
  simp only [Ymd.strf, pad4, pad2, List.cons_append, List.nil_append]
  simp only [parse_fecha, String.toList]
  rw [if_neg (by simp)]
  have hstrip : stripChars
      (digitChar (y / 1000 % 10) :: digitChar (y / 100 % 10) :: digitChar (y / 10 % 10) ::
        digitChar (y % 10) :: '-' :: digitChar (m / 10 % 10) :: digitChar (m % 10) ::
        '-' :: digitChar (d / 10 % 10) :: [digitChar (d % 10)])
      = digitChar (y / 1000 % 10) :: digitChar (y / 100 % 10) :: digitChar (y / 10 % 10) ::
        digitChar (y % 10) :: '-' :: digitChar (m / 10 % 10) :: digitChar (m % 10) ::
        '-' :: digitChar (d / 10 % 10) :: [digitChar (d % 10)] := by
    apply stripChars_of_no_space
    intro c hc
    simp only [List.mem_cons] at hc
    rcases hc with rfl | rfl | rfl | rfl | rfl | rfl | rfl | rfl | rfl | hc
    · exact digitChar_not_space q1
    · exact digitChar_not_space q2
    · exact digitChar_not_space q3
    · exact digitChar_not_space q4
    · decide
    · exact digitChar_not_space q5
    · exact digitChar_not_space q6
    · decide
    · exact digitChar_not_space q7
    · rcases hc with rfl | hc
      · exact digitChar_not_space q8
      · exact absurd hc (List.not_mem_nil c)
  rw [hstrip]
  have hr1 : readNumAux 4 0 0
      (digitChar (y / 1000 % 10) :: digitChar (y / 100 % 10) :: digitChar (y / 10 % 10) ::
        digitChar (y % 10) :: '-' :: digitChar (m / 10 % 10) :: digitChar (m % 10) ::
        '-' :: digitChar (d / 10 % 10) :: [digitChar (d % 10)])
      = (y, 4, '-' :: digitChar (m / 10 % 10) :: digitChar (m % 10) ::
          '-' :: digitChar (d / 10 % 10) :: [digitChar (d % 10)]) := by
    rw [readNum_step (digitChar_isDigit q1), readNum_step (digitChar_isDigit q2),
      readNum_step (digitChar_isDigit q3), readNum_step (digitChar_isDigit q4), readNum_zero]
    rw [digitChar_toNat q1, digitChar_toNat q2, digitChar_toNat q3, digitChar_toNat q4]
    simp only [Prod.mk.injEq, and_true]
    omega
  have hr2 : readNumAux 2 0 0
      (digitChar (m / 10 % 10) :: digitChar (m % 10) ::
        '-' :: digitChar (d / 10 % 10) :: [digitChar (d % 10)])
      = (m, 2, '-' :: digitChar (d / 10 % 10) :: [digitChar (d % 10)]) := by
    rw [readNum_step (digitChar_isDigit q5), readNum_step (digitChar_isDigit q6), readNum_zero]
    rw [digitChar_toNat q5, digitChar_toNat q6]
    simp only [Prod.mk.injEq, and_true]
    omega
  have hr3 : readNumAux 2 0 0 (digitChar (d / 10 % 10) :: [digitChar (d % 10)])
      = (d, 2, []) := by
    rw [readNum_step (digitChar_isDigit q7), readNum_step (digitChar_isDigit q8), readNum_zero]
    rw [digitChar_toNat q7, digitChar_toNat q8]
    simp only [Prod.mk.injEq, and_true]
    omega
  have hrex : rexYMD
      (digitChar (y / 1000 % 10) :: digitChar (y / 100 % 10) :: digitChar (y / 10 % 10) ::
        digitChar (y % 10) :: '-' :: digitChar (m / 10 % 10) :: digitChar (m % 10) ::
        '-' :: digitChar (d / 10 % 10) :: [digitChar (d % 10)])
      = some (y, m, d) := by
    unfold rexYMD
    rw [hr1]
    dsimp only
    rw [if_pos rfl]
    rw [show expectChar '-' ('-' :: digitChar (m / 10 % 10) :: digitChar (m % 10) ::
        '-' :: digitChar (d / 10 % 10) :: [digitChar (d % 10)])
      = some (digitChar (m / 10 % 10) :: digitChar (m % 10) ::
          '-' :: digitChar (d / 10 % 10) :: [digitChar (d % 10)]) from by simp [expectChar]]
    simp only [Option.some_bind]
    rw [hr2]
    dsimp only
    rw [if_pos ⟨by omega, hm1, hm2⟩]
    rw [show expectChar '-' ('-' :: digitChar (d / 10 % 10) :: [digitChar (d % 10)])
      = some (digitChar (d / 10 % 10) :: [digitChar (d % 10)]) from by simp [expectChar]]
    simp only [Option.some_bind]
    rw [hr3]
    dsimp only
    rw [if_pos ⟨by omega, hd1, hd31, rfl⟩]
  have htf : tryFormat rexYMD
      (digitChar (y / 1000 % 10) :: digitChar (y / 100 % 10) :: digitChar (y / 10 % 10) ::
        digitChar (y % 10) :: '-' :: digitChar (m / 10 % 10) :: digitChar (m % 10) ::
        '-' :: digitChar (d / 10 % 10) :: [digitChar (d % 10)])
      = some ⟨y, m, d⟩ := by
    unfold tryFormat
    rw [hrex]
    simp only [Option.some_bind]
    unfold mkDateChecked
    rw [if_pos ⟨hy, h9, hm1, hm2, hd1, hd2⟩]
  rw [htf]
  rfl

theorem mkDateChecked_some {y m d : Nat} {a : Ymd} (h : mkDateChecked y m d = some a) :
    a.Valid ∧ a.y ≤ 9999 := by
  unfold mkDateChecked at h
  split_ifs at h with hc
  cases h
  exact ⟨⟨hc.1, hc.2.2.1, hc.2.2.2.1, hc.2.2.2.2.1, hc.2.2.2.2.2⟩, hc.2.1⟩

theorem tryFormat_some {rex : List Char → Option (Nat × Nat × Nat)} {cs : List Char}
    {a : Ymd} (h : tryFormat rex cs = some a) : a.Valid ∧ a.y ≤ 9999 := by
  unfold tryFormat at h
  cases hr : rex cs with
  | none =>
      rw [hr] at h
      cases h
  | some t =>
      rw [hr] at h
      simp only [Option.some_bind] at h
      exact mkDateChecked_some h

theorem parse_fecha_valid {s : String} {a : Ymd} (h : parse_fecha (some s) = some a) :
    a.Valid ∧ a.y ≤ 9999 := by
  simp only [parse_fecha] at h
  split_ifs at h with h0
  rcases h1 : tryFormat rexYMD (stripChars s.toList) with _ | v
  · rw [h1] at h
    simp only [Option.orElse] at h
    rcases h2 : tryFormat rexDMY (stripChars s.toList) with _ | v2
    · rw [h2] at h
      simp only [Option.orElse] at h
      exact tryFormat_some h
    · rw [h2] at h
      simp only [Option.orElse] at h
      cases h
      exact tryFormat_some h2
  · rw [h1] at h
    simp only [Option.orElse] at h
    cases h
    exact tryFormat_some h1

theorem parse_of_strip_empty {t : String} (h : stripChars t.toList = []) :
    parse_fecha (some t) = none := by
  simp only [parse_fecha]
  split_ifs with h0
  · rfl
  · rw [h]
    rfl

theorem parse_nonblank {t : String} {a : Ymd} (h : parse_fecha (some t) = some a) :
    stripChars t.toList ≠ [] := by
  intro hc
  rw [parse_of_strip_empty hc] at h
  exact Option.noConfusion h

theorem strf_ne_empty (a : Ymd) : (a.strf != "") = true := by
  simp only [bne_iff_ne, ne_eq]
  intro h
  have h2 : (Ymd.strf a).data = ("" : String).data := congrArg String.data h
  simp [Ymd.strf, pad4, pad2] at h2

theorem strip_empty_toList : stripChars ("" : String).toList = [] := rfl

theorem norm_err {t : String} (h1 : stripChars t.toList ≠ [])
    (h2 : parse_fecha (some t) = none) :
    norm_fecha_txt (some t) = Except.error (PyErr.valueError invalidDateMsg) := by
  simp only [norm_fecha_txt]
  rw [if_neg h1, h2]

theorem norm_parsed {t : String} {dt : Ymd} (h2 : parse_fecha (some t) = some dt) :
    norm_fecha_txt (some t) = Except.ok (some dt.strf) := by
  simp only [norm_fecha_txt]
  rw [if_neg (parse_nonblank h2), h2]

theorem norm_blank {t : String} (h : stripChars t.toList = []) :
    norm_fecha_txt (some t) = Except.ok none := by
  simp only [norm_fecha_txt]
  rw [if_pos h]

theorem optTruthy_of_ne {t : String} (h : t ≠ "") : optTruthy (some t) = true := by
  simp [optTruthy, h]

theorem ne_empty_of_strip {t : String} (h : stripChars t.toList ≠ []) : t ≠ "" :=
  fun he => h (by rw [he]; rfl)

theorem ne_empty_of_parse {t : String} {a : Ymd} (h : parse_fecha (some t) = some a) :
    t ≠ "" := ne_empty_of_strip (parse_nonblank h)

theorem validar_V1 {s : String} {sal : Option String} (h1 : stripChars s.toList ≠ [])
    (h2 : parse_fecha (some s) = none) :
    validar_fechas (some s) sal = Except.error (PyErr.valueError invalidDateMsg) := by
  unfold validar_fechas
  rw [norm_err h1 h2]

theorem exit_branch_none {sal : Option String}
    (h : sal = none ∨ ∃ t, sal = some t ∧ stripChars t.toList = []) :
    (if optTruthy sal then norm_fecha_txt sal else Except.ok none)
      = Except.ok (none : Option String) := by
  rcases h with rfl | ⟨t, rfl, ht⟩
  · rfl
  · by_cases he : t = ""
    · subst he
      rfl
    · rw [if_pos (optTruthy_of_ne he), norm_blank ht]

theorem validar_ok_noexit {s : String} {de : Ymd} {sal : Option String}
    (hps : parse_fecha (some s) = some de)
    (hsal : sal = none ∨ ∃ t, sal = some t ∧ stripChars t.toList = []) :
    validar_fechas (some s) sal = Except.ok (some de.strf, none) := by
  unfold validar_fechas
  rw [norm_parsed hps, exit_branch_none hsal]
  rfl

theorem validar_V3 {s t : String} {de : Ymd} (hps : parse_fecha (some s) = some de)
    (h1 : stripChars t.toList ≠ []) (h2 : parse_fecha (some t) = none) :
    validar_fechas (some s) (some t) = Except.error (PyErr.valueError invalidDateMsg) := by
  unfold validar_fechas
  rw [norm_parsed hps, if_pos (optTruthy_of_ne (ne_empty_of_strip h1)), norm_err h1 h2]

theorem validar_V4 {s t : String} {de ds : Ymd} (hps : parse_fecha (some s) = some de)
    (hpt : parse_fecha (some t) = some ds) :
    validar_fechas (some s) (some t)
      = if Ymd.lt ds de then Except.error (PyErr.valueError orderMsg)
        else Except.ok (some de.strf, some ds.strf) := by
  obtain ⟨hvde, h9de⟩ := parse_fecha_valid hps
  obtain ⟨hvds, h9ds⟩ := parse_fecha_valid hpt
  unfold validar_fechas
  rw [norm_parsed hps, if_pos (optTruthy_of_ne (ne_empty_of_parse hpt)), norm_parsed hpt]
  show (let d_ent := parse_fecha (some de.strf)
        let d_sal := if optTruthy (some ds.strf) then parse_fecha (some ds.strf) else none
        match d_sal with
        | none => Except.ok (some de.strf, some ds.strf)
        | some ds2 =>
            match d_ent with
            | none => Except.error PyErr.typeError
            | some de2 =>
                if Ymd.lt ds2 de2 then Except.error (PyErr.valueError orderMsg)
                else Except.ok (some de.strf, some ds.strf)) = _
  rw [show optTruthy (some ds.strf) = true from strf_ne_empty ds]
  simp only [if_true]
  rw [strf_parse hvds h9ds, strf_parse hvde h9de]

/-! ### Expected-hours lemmas -/

theorem pyInt_coerce (i : ℤ) :
    pyInt (if pyTruthy (PyVal.vint i) then PyVal.vint i else PyVal.vint 0)
      = Except.ok i := by
  by_cases h : i = 0
  · subst h
    rfl
  · rw [if_pos (by simp [pyTruthy, h])]
    rfl

theorem cast_max_toNat (i : ℤ) : ((max i 0 : ℤ) : ℚ) = ((i.toNat : ℕ) : ℚ) := by
  have h : (i.toNat : ℤ) = max i 0 := Int.toNat_eq_max i
  rw [← h]
  push_cast
  ring

theorem expected_hours_vint (fase : String) (i : ℤ) :
    expected_hours fase (PyVal.vint i) = Except.ok (specExpected fase i.toNat) := by
  unfold expected_hours
  rw [pyInt_coerce]
  unfold specExpected
  rw [← cast_max_toNat]

theorem expected_hours_vnone (fase : String) :
    expected_hours fase PyVal.vnone = Except.ok (specExpected fase 0) := by
  unfold expected_hours
  rw [show pyInt (if pyTruthy PyVal.vnone then PyVal.vnone else PyVal.vint 0)
      = Except.ok (0 : ℤ) from rfl]
  unfold specExpected
  rw [show ((0 : ℕ) : ℚ) = (((0 : ℤ).toNat : ℕ) : ℚ) from rfl, ← cast_max_toNat]

theorem expected_hours_vblank (fase : String) :
    expected_hours fase (PyVal.vstr "") = Except.ok (specExpected fase 0) := by
  unfold expected_hours
  rw [show pyInt (if pyTruthy (PyVal.vstr "") then PyVal.vstr "" else PyVal.vint 0)
      = Except.ok (0 : ℤ) from rfl]
  unfold specExpected
  rw [show ((0 : ℕ) : ℚ) = (((0 : ℤ).toNat : ℕ) : ℚ) from rfl, ← cast_max_toNat]

/-! ### Claim theorems -/

/-- C1: `business_hours_between` returns 0 when either argument is
absent; otherwise it equals `WORK_HOURS` (8.5) summed over every
calendar day `d` with `d0 ≤ d < end.date` that is a business day, plus
the end-day partial contribution (clamped into the work window, capped
at one day, only when positive), rounded to 2 decimals.  The third
conjunct characterizes the day range used by the sum. -/
theorem c1_business_hours_characterization :
    (∀ (hol : List String) (e : Option Instant), business_hours_between hol none e = 0)
    ∧ (∀ (hol : List String) (d : Option Ymd), business_hours_between hol d none = 0)
    ∧ ∀ (hol : List String) (d0 : Ymd) (e : Instant), d0.Valid → e.date.Valid →
        (business_hours_between hol (some d0) (some e)
            = round2 (WORK_HOURS
                * (((daysRange d0 (e.date.toOrd - d0.toOrd)).filter
                      fun x => is_business_day hol x = true).card : ℚ)
                + specEndDay hol e)
          ∧ ∀ dt : Ymd, dt ∈ daysRange d0 (e.date.toOrd - d0.toOrd)
              ↔ (dt.Valid ∧ Ymd.le d0 dt ∧ Ymd.lt dt e.date)) := by
  refine ⟨fun hol e => bhb_none_left hol e, fun hol d => bhb_none_right hol d, ?_⟩
  intro hol d0 e h0 hE
  refine ⟨?_, mem_daysRange h0 hE⟩
  rw [bhb_eq, bh_loop_eq_sum, sum_eq_card_mul hol h0]

/-- C1 witness: the characterization applied at the spec scenario
(start 2025-06-02, end 2025-06-04T10:00, no holidays). -/
theorem c1_witness :
    Ymd.Valid ⟨2025, 6, 2⟩ ∧ Ymd.Valid ⟨2025, 6, 4⟩
    ∧ business_hours_between [] (some ⟨2025, 6, 2⟩) (some ⟨⟨2025, 6, 4⟩, 600⟩)
        = round2 (WORK_HOURS
            * (((daysRange ⟨2025, 6, 2⟩
                  ((⟨⟨2025, 6, 4⟩, 600⟩ : Instant).date.toOrd - Ymd.toOrd ⟨2025, 6, 2⟩)).filter
                  fun x => is_business_day [] x = true).card : ℚ)
            + specEndDay [] ⟨⟨2025, 6, 4⟩, 600⟩) :=
  ⟨by decide, by decide,
    (c1_business_hours_characterization.2.2 [] ⟨2025, 6, 2⟩ ⟨⟨2025, 6, 4⟩, 600⟩
      (by decide) (by decide)).1⟩

/-- C2 counterexample: on the spec scenario (work window 08:00-16:30, no
holidays, start Monday 2025-06-02, end Wednesday 2025-06-04T10:00) the
code does not return 10.5 — the loop also counts the start day. -/
theorem c2_counterexample :
    business_hours_between [] (some ⟨2025, 6, 2⟩) (some ⟨⟨2025, 6, 4⟩, 600⟩) ≠ (10.5 : ℚ) := by
  rw [bhb_eval_mon_wed]
  norm_num

/-- C2 (amended): on that scenario the code returns 19.0 — two full
business days (Monday and Tuesday, 8.5 h each) plus the 2-hour partial
Wednesday. -/
theorem c2_amended :
    business_hours_between [] (some ⟨2025, 6, 2⟩) (some ⟨⟨2025, 6, 4⟩, 600⟩) = 19 :=
  bhb_eval_mon_wed

/-- C3 counterexample: with holiday 2025-06-03 the same span does not
return 2.0 — the start day Monday still contributes a full day. -/
theorem c3_counterexample :
    business_hours_between ["2025-06-03"] (some ⟨2025, 6, 2⟩) (some ⟨⟨2025, 6, 4⟩, 600⟩)
      ≠ (2 : ℚ) := by
  rw [bhb_eval_mon_wed_hol]
  norm_num

/-- C3 (amended): with holiday 2025-06-03 the span returns 10.5 —
Monday's full 8.5 h (Tuesday excluded as a holiday) plus the 2-hour
partial Wednesday. -/
theorem c3_amended :
    business_hours_between ["2025-06-03"] (some ⟨2025, 6, 2⟩) (some ⟨⟨2025, 6, 4⟩, 600⟩)
      = (10.5 : ℚ) := by
  rw [bhb_eval_mon_wed_hol]
  norm_num

/-- C4 counterexample: with start date 2025-06-10 after both end
instants, the result strictly decreases from end Friday 2025-06-06T16:30
(8.5) to the later end Saturday 2025-06-07T10:00 (0), refuting
unconditional monotonicity. -/
theorem c4_counterexample :
    Instant.le ⟨⟨2025, 6, 6⟩, 990⟩ ⟨⟨2025, 6, 7⟩, 600⟩
    ∧ business_hours_between [] (some ⟨2025, 6, 10⟩) (some ⟨⟨2025, 6, 7⟩, 600⟩)
        < business_hours_between [] (some ⟨2025, 6, 10⟩) (some ⟨⟨2025, 6, 6⟩, 990⟩) := by
  refine ⟨by decide, ?_⟩
  rw [bhb_eval_rev_sat, bhb_eval_rev_fri]
  norm_num

/-- C4 (amended): `business_hours_between` is monotone non-decreasing in
the end instant provided the start date is on or before the earlier end
instant's date (the unrestricted claim fails when both end dates precede
the start date, see `c4_counterexample`). -/
theorem c4_monotone_amended : ∀ (hol : List String) (d0 : Ymd) (e1 e2 : Instant),
    d0.Valid → e1.date.Valid → e2.date.Valid → Instant.le e1 e2 → Ymd.le d0 e1.date →
    business_hours_between hol (some d0) (some e1)
      ≤ business_hours_between hol (some d0) (some e2) := by
  intro hol d0 e1 e2 h0 h1 h2 hle hst
  rw [bhb_eq, bhb_eq]
  exact round2_mono (total_mono hol h0 h1 h2 hle hst)

/-- C4 witness: monotonicity applied at concrete end instants
2025-06-03T10:00 ≤ 2025-06-04T10:00 with start 2025-06-02. -/
theorem c4_witness :
    Ymd.Valid ⟨2025, 6, 2⟩ ∧ Instant.le ⟨⟨2025, 6, 3⟩, 600⟩ ⟨⟨2025, 6, 4⟩, 600⟩
    ∧ Ymd.le ⟨2025, 6, 2⟩ ⟨2025, 6, 3⟩
    ∧ business_hours_between [] (some ⟨2025, 6, 2⟩) (some ⟨⟨2025, 6, 3⟩, 600⟩)
        ≤ business_hours_between [] (some ⟨2025, 6, 2⟩) (some ⟨⟨2025, 6, 4⟩, 600⟩) :=
  ⟨by decide, by decide, by decide,
    c4_monotone_amended [] ⟨2025, 6, 2⟩ ⟨⟨2025, 6, 3⟩, 600⟩ ⟨⟨2025, 6, 4⟩, 600⟩
      (by decide) (by decide) (by decide) (by decide) (by decide)⟩

/-- C5: `is_business_day` returns `false` exactly when the weekday is
Saturday (5) or Sunday (6) or the canonical "YYYY-MM-DD" string is in
the holiday set; it is a total function (a total Lean `def`). -/
theorem c5_business_day_iff : ∀ (hol : List String) (d : Ymd),
    is_business_day hol d = false
      ↔ ((d.weekday = 5 ∨ d.weekday = 6) ∨ d.strf ∈ hol) := by
  intro hol d
  have hw : d.weekday < 7 := Nat.mod_lt _ (by norm_num)
  unfold is_business_day
  split_ifs with h1 h2
  · constructor
    · intro _
      exact Or.inl (by omega)
    · intro _
      rfl
  · constructor
    · intro _
      exact Or.inr h2
    · intro _
      rfl
  · constructor
    · intro h
      exact absurd h (by decide)
    · rintro ((h5 | h6) | hm)
      · exfalso
        omega
      · exfalso
        omega
      · exact absurd hm h2

/-- C6 counterexample: `expected_hours` does raise for a non-numeric
textual unit count — `int("x")` raises a `ValueError`. -/
theorem c6_counterexample :
    expected_hours "CAMPO" (PyVal.vstr "x")
      = Except.error (PyErr.valueError intErrMsg) := rfl

/-- C6 (amended): `expected_hours` looks the phase up case-insensitively
(unknown phases give ratio 0 and minimum 0 through the lookup default),
coerces integer unit counts to non-negative (negatives give 0) and
treats absent or blank counts as 0, returning
`round2 (max (n * ratio) minimum)`; but a non-numeric, non-blank textual
unit count raises a `ValueError` rather than being treated as 0. -/
theorem c6_amended :
    (∀ (fase : String) (i : ℤ),
        expected_hours fase (PyVal.vint i) = Except.ok (specExpected fase i.toNat))
    ∧ (∀ fase : String, expected_hours fase PyVal.vnone = Except.ok (specExpected fase 0))
    ∧ (∀ fase : String, expected_hours fase (PyVal.vstr "") = Except.ok (specExpected fase 0))
    ∧ expected_hours "CAMPO" (PyVal.vstr "x") = Except.error (PyErr.valueError intErrMsg) :=
  ⟨expected_hours_vint, expected_hours_vnone, expected_hours_vblank, rfl⟩

/-- C8: for every phase, integer unit count, entry text, exit text (and
clock instant), `kpis_fila` is total — it returns `ok` with progress 0
when the expected hours are 0 (the division is guarded), progress
`round1 (real / expected * 100)` otherwise, and the alert flag exactly
when real exceeds expected. -/
theorem c8_kpis_total : ∀ (hol : List String) (now : Instant) (fase : String) (i : ℤ)
    (f_ent f_sal : Option String),
    kpis_fila hol now fase (PyVal.vint i) f_ent f_sal
      = Except.ok (specExpected fase i.toNat,
          round2 (real_hours hol now f_ent f_sal),
          (if specExpected fase i.toNat = 0 then 0
           else round1 (real_hours hol now f_ent f_sal / specExpected fase i.toNat * 100)),
          decide (specExpected fase i.toNat < real_hours hol now f_ent f_sal)) := by
  intro hol now fase i f_ent f_sal
  unfold kpis_fila
  rw [expected_hours_vint]

/-- C9: `business_hours_between` has no ordering precondition — with
start 2025-06-10 and end 2025-06-04T10:00 (end date strictly earlier),
the loop contributes nothing but the end-day partial still yields the
strictly positive result 2.0. -/
theorem c9_reversed_range_positive :
    Ymd.lt (⟨⟨2025, 6, 4⟩, 600⟩ : Instant).date ⟨2025, 6, 10⟩
    ∧ business_hours_between [] (some ⟨2025, 6, 10⟩) (some ⟨⟨2025, 6, 4⟩, 600⟩) = 2
    ∧ (0 : ℚ) < business_hours_between [] (some ⟨2025, 6, 10⟩) (some ⟨⟨2025, 6, 4⟩, 600⟩) := by
  refine ⟨by decide, bhb_eval_rev_wed, ?_⟩
  rw [bhb_eval_rev_wed]
  norm_num

/-- C7 counterexample: with a blank (all-space) entry text and a
parsable exit text, `validar_fechas` raises a `TypeError` — a third
failure mode that is neither of the two documented `ValueError`s. -/
theorem c7_counterexample :
    validar_fechas (some " ") (some "2025-06-01") = Except.error PyErr.typeError
    ∧ (Except.error PyErr.typeError :
          Except PyErr (Option String × Option String))
        ≠ Except.error (PyErr.valueError invalidDateMsg)
    ∧ (Except.error PyErr.typeError :
          Except PyErr (Option String × Option String))
        ≠ Except.error (PyErr.valueError orderMsg) :=
  ⟨rfl, fun h => PyErr.noConfusion (Except.error.inj h),
    fun h => PyErr.noConfusion (Except.error.inj h)⟩

/-- C7 (amended): provided the entry text is non-blank after stripping,
`validar_fechas` fails exactly in the two documented ways — an
`InvalidDateFormat` `ValueError` (propagated from normalization) exactly
when the entry text or a non-blank exit text is unparsable, and a
`DateOrderViolation` `ValueError` exactly when both dates parse and the
exit date is strictly before the entry date; no other error occurs.
(The unamended claim is refuted by `c7_counterexample`: with a blank
entry and a parsable exit the function raises a `TypeError` instead.) -/
theorem c7_amended : ∀ (s : String) (sal : Option String),
    stripChars s.toList ≠ [] →
    ((validar_fechas (some s) sal = Except.error (PyErr.valueError invalidDateMsg)
        ↔ (parse_fecha (some s) = none
            ∨ ∃ t, sal = some t ∧ stripChars t.toList ≠ [] ∧ parse_fecha (some t) = none))
      ∧ (validar_fechas (some s) sal = Except.error (PyErr.valueError orderMsg)
          ↔ ∃ de ds t, parse_fecha (some s) = some de ∧ sal = some t
              ∧ parse_fecha (some t) = some ds ∧ Ymd.lt ds de)
      ∧ ∀ e, validar_fechas (some s) sal = Except.error e
          → e = PyErr.valueError invalidDateMsg ∨ e = PyErr.valueError orderMsg) := by
  intro s sal hstrip
  have hmsg : invalidDateMsg ≠ orderMsg := by decide
  rcases hps : parse_fecha (some s) with _ | de
  · have hv := @validar_V1 s sal hstrip hps
    refine ⟨?_, ?_, ?_⟩
    · rw [hv]
      simp
    · rw [hv]
      constructor
      · intro h
        exact absurd (PyErr.valueError.inj (Except.error.inj h)) hmsg
      · rintro ⟨de, ds, t, hde, -, -, -⟩
        exact Option.noConfusion hde
    · intro e he
      rw [hv] at he
      exact Or.inl (Except.error.inj he).symm
  · rcases sal with _ | t
    · have hv := validar_ok_noexit hps (Or.inl rfl)
      refine ⟨?_, ?_, ?_⟩
      · rw [hv]
        simp
      · rw [hv]
        simp
      · intro e he
        rw [hv] at he
        exact Except.noConfusion he
    · by_cases hts : stripChars t.toList = []
      · have hv := validar_ok_noexit hps (Or.inr ⟨t, rfl, hts⟩)
        have hpt : parse_fecha (some t) = none := parse_of_strip_empty hts
        refine ⟨?_, ?_, ?_⟩
        · rw [hv]
          constructor
          · intro h
            exact Except.noConfusion h
          · rintro (h | ⟨t2, ht2, hs2, hp2⟩)
            · exact Option.noConfusion h
            · cases Option.some.inj ht2
              exact absurd hts hs2
        · rw [hv]
          constructor
          · intro h
            exact Except.noConfusion h
          · rintro ⟨de2, ds2, t2, -, ht2, hp2, -⟩
            cases Option.some.inj ht2
            rw [hpt] at hp2
            exact Option.noConfusion hp2
        · intro e he
          rw [hv] at he
          exact Except.noConfusion he
      · rcases hpt : parse_fecha (some t) with _ | ds
        · have hv := @validar_V3 s t de hps hts hpt
          refine ⟨?_, ?_, ?_⟩
          · rw [hv]
            constructor
            · intro h
              exact Or.inr ⟨t, rfl, hts, hpt⟩
            · intro h
              rfl
          · rw [hv]
            constructor
            · intro h
              exact absurd (PyErr.valueError.inj (Except.error.inj h)) hmsg
            · rintro ⟨de2, ds2, t2, -, ht2, hp2, -⟩
              cases Option.some.inj ht2
              rw [hpt] at hp2
              exact Option.noConfusion hp2
          · intro e he
            rw [hv] at he
            exact Or.inl (Except.error.inj he).symm
        · have hv := validar_V4 hps hpt
          by_cases hlt : Ymd.lt ds de
          · rw [if_pos hlt] at hv
            refine ⟨?_, ?_, ?_⟩
            · rw [hv]
              constructor
              · intro h
                exact absurd (PyErr.valueError.inj (Except.error.inj h)).symm hmsg
              · rintro (h | ⟨t2, ht2, hs2, hp2⟩)
                · exact Option.noConfusion h
                · cases Option.some.inj ht2
                  rw [hpt] at hp2
                  exact Option.noConfusion hp2
            · rw [hv]
              constructor
              · intro h
                exact ⟨de, ds, t, rfl, rfl, hpt, hlt⟩
              · intro h
                rfl
            · intro e he
              rw [hv] at he
              exact Or.inr (Except.error.inj he).symm
          · rw [if_neg hlt] at hv
            refine ⟨?_, ?_, ?_⟩
            · rw [hv]
              constructor
              · intro h
                exact Except.noConfusion h
              · rintro (h | ⟨t2, ht2, hs2, hp2⟩)
                · exact Option.noConfusion h
                · cases Option.some.inj ht2
                  rw [hpt] at hp2
                  exact Option.noConfusion hp2
            · rw [hv]
              constructor
              · intro h
                exact Except.noConfusion h
              · rintro ⟨de2, ds2, t2, hp2, ht2, hp3, hlt2⟩
                cases Option.some.inj ht2
                cases Option.some.inj hp2
                rw [hpt] at hp3
                cases Option.some.inj hp3
                exact absurd hlt2 hlt
            · intro e he
              rw [hv] at he
              exact Except.noConfusion he

/-- C7 witness: the amended characterization applied at
("2025-06-10", "2025-06-01"), which fails with `DateOrderViolation`. -/
theorem c7_witness :
    stripChars ("2025-06-10" : String).toList ≠ []
    ∧ validar_fechas (some "2025-06-10") (some "2025-06-01")
        = Except.error (PyErr.valueError orderMsg) :=
  ⟨by decide, (c7_amended "2025-06-10" (some "2025-06-01") (by decide)).2.1.mpr
    ⟨⟨2025, 6, 10⟩, ⟨2025, 6, 1⟩, "2025-06-01", by decide, rfl, by decide, by decide⟩⟩

/-- C10: with a blank or absent entry but a non-blank parsable exit,
`validar_fechas` raises a `TypeError` (from comparing a date with
`None`) — neither of the two documented `ValueError`s — while blank
entry together with blank exit returns `(None, None)` without error. -/
theorem c10_blank_entry_type_error :
    validar_fechas none (some "2025-06-01") = Except.error PyErr.typeError
    ∧ validar_fechas (some "") (some "2025-06-01") = Except.error PyErr.typeError
    ∧ validar_fechas none none = Except.ok (none, none)
    ∧ validar_fechas (some "") (some "") = Except.ok (none, none)
    ∧ ∀ msg, (PyErr.typeError : PyErr) ≠ PyErr.valueError msg :=
  ⟨rfl, rfl, rfl, rfl, fun _ h => PyErr.noConfusion h⟩
